import Mathlib

/-!
Verification of the two ETL scripts `circl_pdns_etl.py` and `etl_shodan.py`.

The Python code is shallowly embedded: generators become functions from an
explicit description of the external source's behaviour to the list of
records they yield, exceptions become `Except`/explicit constructor cases,
wall-clock reads and the external date parser become parameters, and the
side effects the claims talk about (sleeps, store calls, flushed batches)
are returned explicitly alongside the values.
-/

namespace CirclPdns

/-- Model of a `datetime` value: for this development only its identity
matters, so it is represented by its epoch-seconds integer. -/
structure DT where
  epoch : Int
deriving DecidableEq, Repr

/-- `datetime.utcfromtimestamp(n)` for an integer `n` (total in the range of
inputs this development considers). -/
def utcfromtimestamp (n : Int) : DT := ⟨n⟩

/-- Python `int(q)` on a float value, modelled as a rational: truncation
toward zero (`Int.tdiv`, so `int(-1.5) = -1`, not floor's `-2`). -/
def pyIntOfFloat (q : ℚ) : Int := q.num.tdiv q.den

/-- The possible inputs of `_parse_time_safe`: `None`, an `int`, a `float`,
a `str`, or any other Python value (which falls through to the final
`return None` in the source). -/
inductive TimeInput where
  | null : TimeInput
  | int (n : Int) : TimeInput
  | float (q : ℚ) : TimeInput
  | str (s : String) : TimeInput
  | other : TimeInput
deriving DecidableEq, Repr

/-- Embedding of `_parse_time_safe` (circl_pdns_etl.py lines 86-98).
`p` models `dateutil.parser.parse`: `p s = some d` when the parse succeeds
with `d`, `p s = none` when it raises (the `except` clause then returns
`None`).  The function is total: no exception escapes in the model, just as
every exception is caught in the source. -/
def _parse_time_safe (p : String → Option DT) : TimeInput → Option DT
  | .null => none
  | .int n => some (utcfromtimestamp n)
  | .float q => some (utcfromtimestamp (pyIntOfFloat q))
  | .str s => p s
  | .other => none

/-! ### Extractor: `extract_pdns` -/

/-- One call of `client.iter_query`: the records it yields, and whether it
ends by raising an exception (`fails = true`) instead of completing. -/
structure Attempt (α : Type) where
  recs : List α
  fails : Bool
deriving DecidableEq, Repr

/-- Truthiness of the Python `limit` argument (`None` or an `int`) as used
in `if limit and count >= limit`. -/
def limitTruthy : Option Nat → Bool
  | none => false
  | some n => n != 0

/-- The inner `for rec in client.iter_query(...)` loop of `extract_pdns`
(lines 152-158): starting from yield-counter `count`, yields records from
`recs`, stopping early as soon as `limit and count >= limit` holds after a
yield.  Returns the records yielded, the new counter, and whether the
limit-triggered `return` fired. -/
def yieldLoop (limit : Option Nat) (count : Nat) : List α → List α × Nat × Bool
  | [] => ([], count, false)
  | r :: rs =>
    let c := count + 1
    if limitTruthy limit && decide (limit.getD 0 ≤ c) then
      ([r], c, true)
    else
      let (ys, c2, hit) := yieldLoop limit c rs
      (r :: ys, c2, hit)

/-- Embedding of the `while True` retry loop of `extract_pdns`
(circl_pdns_etl.py lines 150-169).  `attempts` describes what each
successive call of `client.iter_query` does; `maxRetries` is `MAX_RETRIES`
and `backoff` is `RETRY_BACKOFF`.  Returns the records the generator
yields and the list of back-off sleep durations (`RETRY_BACKOFF **
retries`) it performs, in order.  `REQUEST_DELAY` is its default `0.0`, so
the inter-record sleep never fires.  Every exception of the source is
caught by the `except` clause and never re-raised, which is why the result
type has no error case. -/
def extractGo (maxRetries : Nat) (backoff : ℚ) (limit : Option Nat) :
    List (Attempt α) → Nat → Nat → List α × List ℚ
  | [], _, _ => ([], [])
  | a :: rest, count, retries =>
    let (ys, c, hit) := yieldLoop limit count a.recs
    if hit then (ys, [])
    else if a.fails then
      if maxRetries < retries + 1 then (ys, [])
      else
        let (ys2, sleeps) := extractGo maxRetries backoff limit rest c (retries + 1)
        (ys ++ ys2, backoff ^ (retries + 1) :: sleeps)
    else (ys, [])

/-- `extract_pdns` proper: the loop entered with `count = 0`, `retries = 0`. -/
def extract_pdns (maxRetries : Nat) (backoff : ℚ) (limit : Option Nat)
    (attempts : List (Attempt α)) : List α × List ℚ :=
  extractGo maxRetries backoff limit attempts 0 0

/-- With a falsy `limit` (`None` or `0`) the inner loop yields everything
and never triggers the cap. -/
theorem yieldLoop_falsy (limit : Option Nat) (h : limitTruthy limit = false)
    (count : Nat) (recs : List α) :
    yieldLoop limit count recs = (recs, count + recs.length, false) := by
  induction recs generalizing count with
  | nil => simp [yieldLoop]
  | cons r rs ih =>
    simp only [yieldLoop, h, Bool.false_and, Bool.false_eq_true, if_false, ih]
    simp [Nat.add_comm, Nat.add_assoc, Nat.add_left_comm]

/-- With a truthy cap `K` and at least `K - count` records remaining, the
inner loop yields exactly `K - count` records and fires the cap. -/
theorem yieldLoop_hits (K : Nat) (hK : K ≠ 0) (count : Nat) (recs : List α)
    (hlt : count < K) (hlen : K - count ≤ recs.length) :
    yieldLoop (some K) count recs = (recs.take (K - count), K, true) := by
  induction recs generalizing count with
  | nil => simp only [List.length_nil] at hlen; omega
  | cons r rs ih =>
    simp only [yieldLoop, limitTruthy, Option.getD_some]
    by_cases hc : K ≤ count + 1
    · have hKc : K = count + 1 := by omega
      have : (K != 0) = true := by simpa using hK
      simp [this, hc, hKc]
    · have h1 : count + 1 < K := by omega
      have h2 : K - (count + 1) ≤ rs.length := by
        simp only [List.length_cons] at hlen; omega
      have hdec : decide (K ≤ count + 1) = false := by simpa using hc
      simp only [hdec, Bool.and_false, Bool.false_eq_true, if_false,
        ih (count + 1) h1 h2]
      have htake : (r :: rs).take (K - count) = r :: rs.take (K - (count + 1)) := by
        have : K - count = (K - (count + 1)) + 1 := by omega
        simp [this]
      simp [htake]

/-- With a truthy cap `K` and fewer than `K - count` records remaining,
the inner loop yields everything without firing the cap. -/
theorem yieldLoop_short (K : Nat) (count : Nat) (recs : List α)
    (hlen : count + recs.length < K) :
    yieldLoop (some K) count recs = (recs, count + recs.length, false) := by
  induction recs generalizing count with
  | nil => simp [yieldLoop]
  | cons r rs ih =>
    have hc : ¬ K ≤ count + 1 := by
      simp only [List.length_cons] at hlen; omega
    have hdec : decide (K ≤ count + 1) = false := by simpa using hc
    have h2 : count + 1 + rs.length < K := by
      simp only [List.length_cons] at hlen; omega
    simp only [yieldLoop, limitTruthy, Option.getD_some, hdec, Bool.and_false,
      Bool.false_eq_true, if_false, ih (count + 1) h2]
    simp [Nat.add_comm, Nat.add_assoc, Nat.add_left_comm]

/-- The retry loop after `r` failures already counted: if the next
`(m + 1) - r` calls of `iter_query` all fail, it consumes exactly those
attempts (yielding their records, unlimited), sleeping `backoff ^ i` for
each retry counter value `i` from `r + 1` while the counter stays `≤ m`,
and then terminates. -/
theorem extractGo_all_fail (m : Nat) (b : ℚ) (as rest : List (Attempt α))
    (hfail : ∀ a ∈ as, a.fails = true) (count r : Nat)
    (hlen : as.length + r = m + 1) (hr : r ≤ m) :
    extractGo m b none (as ++ rest) count r =
      ((as.map Attempt.recs).flatten,
       (List.range (m - r)).map (fun i => b ^ (r + 1 + i))) := by
  induction as generalizing count r with
  | nil => simp only [List.length_nil] at hlen; omega
  | cons a as' ih =>
    have hfa : a.fails = true := hfail a (List.mem_cons_self a as')
    simp only [List.cons_append, extractGo,
      yieldLoop_falsy none rfl count a.recs, Bool.false_eq_true, if_false, hfa,
      if_true]
    by_cases hm : m < r + 1
    · have hrm : r = m := by omega
      have has' : as' = [] := by
        simp only [List.length_cons] at hlen
        exact List.eq_nil_of_length_eq_zero (by omega)
      simp [hm, hrm, has']
    · have h1 : as'.length + (r + 1) = m + 1 := by
        simp only [List.length_cons] at hlen; omega
      have h2 : r + 1 ≤ m := by omega
      have hfail' : ∀ a ∈ as', a.fails = true := fun x hx =>
        hfail x (List.mem_cons_of_mem a hx)
      simp only [hm, if_false, List.append_eq, ih hfail' _ _ h1 h2]
      have hrange : m - r = (m - (r + 1)) + 1 := by omega
      rw [hrange, List.range_succ_eq_map]
      simp only [List.map_cons, List.map_map, List.flatten_cons, Prod.mk.injEq,
        List.cons.injEq]
      refine ⟨trivial, ?_, ?_⟩
      · norm_num
      · apply List.map_congr_left
        intro i _
        simp only [Function.comp_apply]
        congr 1
        omega

/-- The retry loop after `r` failures already counted: a run of failing
attempts short enough to stay within the retry budget, followed by a
completing attempt, yields everything seen and sleeps once per retry. -/
theorem extractGo_fail_then_ok (m : Nat) (b : ℚ) (as : List (Attempt α))
    (recs : List α) (rest : List (Attempt α))
    (hfail : ∀ a ∈ as, a.fails = true) (count r : Nat)
    (hle : as.length + r ≤ m) :
    extractGo m b none (as ++ ⟨recs, false⟩ :: rest) count r =
      ((as.map Attempt.recs).flatten ++ recs,
       (List.range as.length).map (fun i => b ^ (r + 1 + i))) := by
  induction as generalizing count r with
  | nil =>
    simp [extractGo, yieldLoop_falsy none rfl count recs]
  | cons a as' ih =>
    have hfa : a.fails = true := hfail a (List.mem_cons_self a as')
    have hm : ¬ m < r + 1 := by
      simp only [List.length_cons] at hle; omega
    have hle' : as'.length + (r + 1) ≤ m := by
      simp only [List.length_cons] at hle; omega
    have hfail' : ∀ a ∈ as', a.fails = true := fun x hx =>
      hfail x (List.mem_cons_of_mem a hx)
    simp only [List.cons_append, extractGo,
      yieldLoop_falsy none rfl count a.recs, Bool.false_eq_true, if_false, hfa,
      if_true, hm, List.append_eq, ih hfail' _ _ hle']
    rw [List.length_cons, List.range_succ_eq_map]
    simp only [List.map_cons, List.map_map, List.flatten_cons, Prod.mk.injEq,
      List.cons.injEq, List.append_assoc]
    refine ⟨trivial, ?_, ?_⟩
    · norm_num
    · apply List.map_congr_left
      intro i _
      simp only [Function.comp_apply]
      congr 1
      omega

/-- C1: on each exception of the re-issued query call the generator sleeps
`RETRY_BACKOFF ^ retries` and re-issues the whole query.  When every call
raises, once the retry counter exceeds `MAX_RETRIES` it terminates, having
yielded exactly the records of the `MAX_RETRIES + 1` attempts made, with
no exception escaping (the model's result is an ordinary value: the
`except` clause never re-raises).  When the query fails `R ≤ MAX_RETRIES`
times and then completes, everything yielded by the failed attempts plus
the full record set of the completing attempt is produced, with `R`
back-off sleeps. -/
theorem extract_pdns_retry_exhaustion (m : Nat) (b : ℚ)
    (as rest : List (Attempt α)) (recs : List α)
    (hfail : ∀ a ∈ as, a.fails = true) :
    (as.length = m + 1 →
      extract_pdns m b none (as ++ rest) =
        ((as.map Attempt.recs).flatten,
         (List.range m).map (fun i => b ^ (i + 1)))) ∧
    (as.length ≤ m →
      extract_pdns m b none (as ++ ⟨recs, false⟩ :: rest) =
        ((as.map Attempt.recs).flatten ++ recs,
         (List.range as.length).map (fun i => b ^ (i + 1)))) := by
  constructor
  · intro hlen
    unfold extract_pdns
    rw [extractGo_all_fail m b as rest hfail 0 0 (by omega) (by omega)]
    simp only [Nat.sub_zero, Prod.mk.injEq, true_and]
    apply List.map_congr_left
    intro i _
    congr 1
    omega
  · intro hle
    unfold extract_pdns
    rw [extractGo_fail_then_ok m b as recs rest hfail 0 0 (by omega)]
    simp only [Prod.mk.injEq, true_and]
    apply List.map_congr_left
    intro i _
    congr 1
    omega

/-- Witness for `extract_pdns_retry_exhaustion`.  Exhaustion: with
`MAX_RETRIES = 1`, two failing attempts yield the three records seen and
one back-off sleep, and the third attempt is never made.  Recovery: with
one failing attempt then a completing one, all records surface after one
sleep. -/
theorem extract_pdns_retry_exhaustion_witness :
    extract_pdns 1 ((3 : ℚ)/2) none
      ([⟨[1, 2], true⟩, ⟨[3], true⟩] ++ [⟨[4], false⟩] : List (Attempt Nat)) =
      ([1, 2, 3], [(3 : ℚ)/2]) ∧
    extract_pdns 1 ((3 : ℚ)/2) none
      ([⟨[1, 2], true⟩] ++ (⟨[7, 8], false⟩ : Attempt Nat) :: []) =
      ([1, 2, 7, 8], [(3 : ℚ)/2]) := by
  constructor
  · have h := (extract_pdns_retry_exhaustion 1 ((3 : ℚ)/2)
      [⟨[1, 2], true⟩, ⟨[3], true⟩] [⟨[4], false⟩] [] (by decide)).1
      (by decide)
    simpa [List.range_succ] using h
  · have h := (extract_pdns_retry_exhaustion 1 ((3 : ℚ)/2)
      [⟨[1, 2], true⟩] [] [7, 8] (by decide)).2 (by decide)
    simpa [List.range_succ] using h

/-- C2: with a cap `K ≥ 1` and a source producing more than `K` records,
`extract_pdns` yields exactly the first `K` records and stops — no matter
whether the attempt would later fail and no matter what further attempts
would produce. -/
theorem extract_pdns_limit (m : Nat) (b : ℚ) (K : Nat) (recs : List α)
    (f : Bool) (rest : List (Attempt α)) (hK : 1 ≤ K)
    (hlen : K < recs.length) :
    extract_pdns m b (some K) (⟨recs, f⟩ :: rest) = (recs.take K, []) := by
  unfold extract_pdns
  have h := yieldLoop_hits K (by omega) 0 recs (by omega) (by omega)
  simp only [extractGo, h, Nat.sub_zero, if_true]

/-- Witness for `extract_pdns_limit`: `limit = 2` against a failing
three-record attempt yields the first two records with no sleep. -/
theorem extract_pdns_limit_witness :
    extract_pdns 3 ((3 : ℚ)/2) (some 2)
      ([⟨[10, 20, 30], true⟩, ⟨[40], false⟩] : List (Attempt Nat)) =
      ([10, 20], []) := by
  have h := extract_pdns_limit 3 ((3 : ℚ)/2) 2 [10, 20, 30] true
    [⟨[40], false⟩] (by decide) (by decide)
  simpa using h

/-- C10: a falsy `limit` (`None` or `0`) disables the cap entirely — the
generator yields every record the source produces — while `limit = K + 1`
caps the yield at the first `K + 1` records. -/
theorem extract_pdns_falsy_limit (m : Nat) (b : ℚ) (recs : List α) :
    extract_pdns m b none [⟨recs, false⟩] = (recs, []) ∧
    extract_pdns m b (some 0) [⟨recs, false⟩] = (recs, []) ∧
    ∀ K : Nat, extract_pdns m b (some (K + 1)) [⟨recs, false⟩] =
      (recs.take (K + 1), []) := by
  refine ⟨?_, ?_, ?_⟩
  · unfold extract_pdns
    simp [extractGo, yieldLoop_falsy none rfl]
  · unfold extract_pdns
    simp [extractGo, yieldLoop_falsy (some 0) rfl]
  · intro K
    unfold extract_pdns
    by_cases hlen : K + 1 ≤ recs.length
    · have h := yieldLoop_hits (K + 1) (by omega) 0 recs (by omega) (by omega)
      simp only [extractGo, h, Nat.sub_zero, if_true]
    · have h := yieldLoop_short (K + 1) 0 recs (by omega)
      have htake : recs.take (K + 1) = recs := List.take_of_length_le (by omega)
      simp [extractGo, h, htake]

/-! ### Transform: `transform_record` -/

/-- Python values as they occur in a passive-DNS record mapping. -/
inductive PyVal where
  | none : PyVal
  | str (s : String) : PyVal
  | int (n : Int) : PyVal
deriving DecidableEq, Repr

/-- Python truthiness of a `PyVal`. -/
def pyTruthy : PyVal → Bool
  | .none => false
  | .str s => s != ""
  | .int n => n != 0

/-- A Python dict with string keys, as an association list. -/
abbrev PyDict : Type := List (String × PyVal)

/-- `d.get(k)`: the value at `k`, or `None` when the key is absent. -/
def pyGet (d : PyDict) (k : String) : PyVal :=
  (List.lookup k d).getD .none

/-- `d.get(k, v)`: the value at `k`, or the default `v` when absent. -/
def pyGetD (d : PyDict) (k : String) (v : PyVal) : PyVal :=
  (List.lookup k d).getD v

/-- Bridge from a `PyVal` stored in a record to the input classification of
`_parse_time_safe`. -/
def timeInputOf : PyVal → TimeInput
  | .none => .null
  | .str s => .str s
  | .int n => .int n

/-- The input of `transform_record`, classified by how lines 106-112 of
circl_pdns_etl.py see it: the object either exposes a truthy `.record`
dict, is itself a dict, is convertible by `dict(...)`, or is none of
those, in which case `dict(rec)` raises, the exception is caught, and
`str(rec)` is wrapped instead. -/
inductive PdnsInput where
  | withRecord (r : PyDict) : PdnsInput
  | asDict (d : PyDict) : PdnsInput
  | convertible (d : PyDict) : PdnsInput
  | strOnly (s : String) : PdnsInput

/-- `rec` after the defensive coercion of lines 106-112: the mapping the
rest of `transform_record` works on. -/
def recOf : PdnsInput → PyDict
  | .withRecord r => r
  | .asDict d => d
  | .convertible d => d
  | .strOnly s => [("raw", PyVal.str s)]

/-- The document built by `transform_record` (lines 114-126). -/
structure TransformedDoc where
  rrname : PyVal
  rrtype : PyVal
  rdata : PyVal
  time_first : Option DT
  time_last : Option DT
  count : PyVal
  origin : PyVal
  source : PyVal
  _raw : PyDict
  _etl_ingested_at : DT
  _etl_source : String
deriving DecidableEq

/-- Embedding of `transform_record` (circl_pdns_etl.py lines 101-127).
`p` models `dateutil.parser.parse` and `now` the `datetime.utcnow()`
read.  The function is total: the only fallible step in the source,
`dict(rec)`, has its exception caught and is modelled by the
`PdnsInput.strOnly` case. -/
def transform_record (p : String → Option DT) (now : DT)
    (pypdns_record : PdnsInput) : TransformedDoc :=
  let r := recOf pypdns_record
  { rrname := pyGet r "rrname"
    rrtype := pyGet r "rrtype"
    rdata := pyGet r "rdata"
    time_first := _parse_time_safe p (timeInputOf (pyGet r "time_first"))
    time_last := _parse_time_safe p (timeInputOf (pyGet r "time_last"))
    count := pyGet r "count"
    origin := pyGet r "origin"
    source := if pyTruthy (pyGet r "source") then pyGet r "source"
              else pyGet r "origin"
    _raw := r
    _etl_ingested_at := now
    _etl_source := "circl_pdns" }

/-- C3: `_parse_time_safe` returns the epoch-seconds datetime for `int`
and `float` input, the parsed datetime for a string the date parser
accepts, `None` for `None`, and `None` for a malformed string (the
parser's exception is caught); being a total function into `Option DT`,
no exception escapes the helper. -/
theorem parse_time_safe_cases (p : String → Option DT) (n : Int) (q : ℚ)
    (s : String) (d : DT) :
    _parse_time_safe p .null = Option.none ∧
    _parse_time_safe p (.int n) = some (utcfromtimestamp n) ∧
    _parse_time_safe p (.float q) = some (utcfromtimestamp (pyIntOfFloat q)) ∧
    (p s = some d → _parse_time_safe p (.str s) = some d) ∧
    (p s = Option.none → _parse_time_safe p (.str s) = Option.none) := by
  refine ⟨rfl, rfl, rfl, ?_, ?_⟩ <;> intro h <;>
    simpa [_parse_time_safe] using h

/-- A concrete stand-in for the external date parser: accepts exactly one
ISO-8601 string. -/
def isoParse : String → Option DT := fun s =>
  if s = "2024-01-01T00:00:00" then some ⟨1704067200⟩ else Option.none

/-- Witness for `parse_time_safe_cases`: a parseable ISO string, a
malformed string, and a negative float truncated toward zero
(`int(-1.5) = -1`). -/
theorem parse_time_safe_cases_witness :
    _parse_time_safe isoParse (.str "2024-01-01T00:00:00") =
      some ⟨1704067200⟩ ∧
    _parse_time_safe isoParse (.str "garbage") = Option.none ∧
    _parse_time_safe isoParse (.float (Rat.mk' (-3) 2)) = some ⟨-1⟩ := by
  refine ⟨(parse_time_safe_cases isoParse 0 0 _ ⟨1704067200⟩).2.2.2.1 ?_,
          (parse_time_safe_cases isoParse 0 0 "garbage" ⟨0⟩).2.2.2.2 ?_,
          ((parse_time_safe_cases isoParse 0 (Rat.mk' (-3) 2) "x" ⟨0⟩).2.2.1).trans
            ?_⟩ <;>
    decide

/-- C4: every document produced by `transform_record` carries the
`_etl_ingested_at` timestamp and the `_etl_source` constant, and its
`_raw` field is the coerced input mapping — in the not-dict-like case the
single-field fallback wrapping the string representation.  The function
is total, so no input makes it raise. -/
theorem transform_record_total_fields (p : String → Option DT) (now : DT)
    (r d d2 : PyDict) (s : String) :
    (transform_record p now (.withRecord r))._raw = r ∧
    (transform_record p now (.asDict d))._raw = d ∧
    (transform_record p now (.convertible d2))._raw = d2 ∧
    (transform_record p now (.strOnly s))._raw = [("raw", PyVal.str s)] ∧
    (∀ inp : PdnsInput,
      (transform_record p now inp)._etl_ingested_at = now ∧
      (transform_record p now inp)._etl_source = "circl_pdns") := by
  refine ⟨rfl, rfl, rfl, rfl, ?_⟩
  intro inp
  cases inp <;> exact ⟨rfl, rfl⟩

/-- The claim "provenance equals the record's `source` field whenever a
`source` field is present" fails: here `source` is present (with the
falsy value `""`), yet the document's provenance is the `origin` value
`"feedX"`. -/
theorem transform_record_source_presence_cex :
    List.lookup "source"
        ([("source", PyVal.str ""), ("origin", PyVal.str "feedX")] : PyDict)
      = some (PyVal.str "") ∧
    (transform_record isoParse ⟨0⟩
        (.asDict [("source", PyVal.str ""), ("origin", PyVal.str "feedX")])).source
      = PyVal.str "feedX" ∧
    PyVal.str "feedX" ≠ PyVal.str "" := by
  refine ⟨by decide, rfl, by decide⟩

/-- C8 (amended): provenance is the record's `source` value when that
value is truthy, and falls back to the `origin` value when `source` is
absent or falsy (the source line tests truthiness, not presence). -/
theorem transform_record_provenance (p : String → Option DT) (now : DT)
    (d : PyDict) :
    (pyTruthy (pyGet d "source") = true →
      (transform_record p now (.asDict d)).source = pyGet d "source") ∧
    (pyTruthy (pyGet d "source") = false →
      (transform_record p now (.asDict d)).source = pyGet d "origin") := by
  constructor <;> intro h <;> simp [transform_record, recOf, h]

/-- Witness for `transform_record_provenance`: a truthy `source` wins; an
absent `source` falls back to `origin`. -/
theorem transform_record_provenance_witness :
    (transform_record isoParse ⟨0⟩
        (.asDict [("source", PyVal.str "feedA")])).source = PyVal.str "feedA" ∧
    (transform_record isoParse ⟨0⟩
        (.asDict [("origin", PyVal.str "feedB")])).source = PyVal.str "feedB" := by
  refine ⟨?_, ?_⟩
  · have h := (transform_record_provenance isoParse ⟨0⟩
      [("source", PyVal.str "feedA")]).1 (by decide)
    simpa [pyGet] using h
  · have h := (transform_record_provenance isoParse ⟨0⟩
      [("origin", PyVal.str "feedB")]).2 (by decide)
    simpa [pyGet] using h

/-! ### Load: `load_batch_to_mongo` -/

/-- What one `collection.insert_many` call does: succeeds with that many
`inserted_ids`, raises `BulkWriteError` carrying `bwe.details` (possibly
`None`), or raises some other exception. -/
inductive InsertOutcome where
  | ok (inserted : Nat) : InsertOutcome
  | bulkWriteError (details : Option PyDict) : InsertOutcome
  | otherError : InsertOutcome

/-- Embedding of `load_batch_to_mongo` (circl_pdns_etl.py lines 175-192).
`store` models the `insert_many` call on the non-empty batch.  Returns
the Python value the function returns together with a flag recording
whether the store was called at all.  Both `except` clauses return
normally, so the model has no error case: no exception propagates. -/
def load_batch_to_mongo (store : List δ → InsertOutcome) :
    List δ → PyVal × Bool
  | [] => (PyVal.int 0, false)
  | doc :: docs =>
    match store (doc :: docs) with
    | .ok n => (PyVal.int n, true)
    | .bulkWriteError details =>
      let dd : PyDict := details.getD []
      let g := pyGet dd "nInserted"
      let n := if pyTruthy g then g else pyGetD dd "nInserted" (PyVal.int 0)
      (if pyTruthy n then n else PyVal.int 0, true)
    | .otherError => (PyVal.int 0, true)

/-- C7: on the empty batch the loader returns `0` and performs no store
operation (the flag is `false`), whatever the store would do. -/
theorem load_batch_to_mongo_empty (store : List δ → InsertOutcome) :
    load_batch_to_mongo store ([] : List δ) = (PyVal.int 0, false) := rfl

/-- C6: on a non-empty batch, a partial failure (`BulkWriteError`) makes
the loader return the `nInserted` count from the error detail when that
detail carries one, and `0` when the detail is `None` or lacks the count;
a total failure returns `0`.  In every case the result is an ordinary
return value — the model, like the source's `except` clauses, has no
raising path. -/
theorem load_batch_to_mongo_failures (store : List δ → InsertOutcome)
    (docs : List δ) (d : PyDict) (k : Int) (hne : docs ≠ []) :
    (store docs = .bulkWriteError (some d) →
      List.lookup "nInserted" d = some (PyVal.int k) →
      load_batch_to_mongo store docs = (PyVal.int k, true)) ∧
    (store docs = .bulkWriteError Option.none →
      load_batch_to_mongo store docs = (PyVal.int 0, true)) ∧
    (store docs = .bulkWriteError (some d) →
      List.lookup "nInserted" d = Option.none →
      load_batch_to_mongo store docs = (PyVal.int 0, true)) ∧
    (store docs = .otherError →
      load_batch_to_mongo store docs = (PyVal.int 0, true)) := by
  obtain ⟨doc, docs', rfl⟩ : ∃ doc docs', docs = doc :: docs' := by
    cases docs with
    | nil => exact absurd rfl hne
    | cons doc docs' => exact ⟨doc, docs', rfl⟩
  refine ⟨?_, ?_, ?_, ?_⟩
  · intro hs hk
    by_cases hk0 : k = 0
    · subst hk0
      simp [load_batch_to_mongo, hs, pyGet, pyGetD, hk, pyTruthy]
    · have : pyTruthy (PyVal.int k) = true := by
        simp [pyTruthy]; exact_mod_cast hk0
      simp [load_batch_to_mongo, hs, pyGet, pyGetD, hk, this]
  · intro hs
    simp [load_batch_to_mongo, hs, pyGet, pyGetD, pyTruthy]
  · intro hs hk
    simp [load_batch_to_mongo, hs, pyGet, pyGetD, hk, pyTruthy]
  · intro hs
    simp [load_batch_to_mongo, hs]

/-- Witness for `load_batch_to_mongo_failures`: the four failure shapes on
a one-document batch. -/
theorem load_batch_to_mongo_failures_witness :
    load_batch_to_mongo
        (fun _ => InsertOutcome.bulkWriteError
          (some [("nInserted", PyVal.int 7)])) [0] = (PyVal.int 7, true) ∧
    load_batch_to_mongo
        (fun _ => InsertOutcome.bulkWriteError Option.none) ([0] : List Nat)
      = (PyVal.int 0, true) ∧
    load_batch_to_mongo
        (fun _ => InsertOutcome.bulkWriteError (some [])) ([0] : List Nat)
      = (PyVal.int 0, true) ∧
    load_batch_to_mongo (fun _ => InsertOutcome.otherError) ([0] : List Nat)
      = (PyVal.int 0, true) := by
  refine ⟨?_, ?_, ?_, ?_⟩
  · exact (load_batch_to_mongo_failures _ [0] [("nInserted", PyVal.int 7)] 7
      (by decide)).1 rfl (by decide)
  · exact (load_batch_to_mongo_failures _ [0] [] 0 (by decide)).2.1 rfl
  · exact (load_batch_to_mongo_failures _ [0] [] 0 (by decide)).2.2.1 rfl
      (by decide)
  · exact (load_batch_to_mongo_failures _ [0] [] 0 (by decide)).2.2.2 rfl

/-! ### Orchestration: `run_etl` -/

/-- Splitting a list into consecutive chunks of size `n`, the last chunk
holding whatever remains.  Used as the independent description of which
batches `run_etl` flushes.  (`n = 0` is degenerate and unused: it yields
no chunks.) -/
def chunks : Nat → List α → List (List α)
  | _, [] => []
  | 0, _ :: _ => []
  | n + 1, x :: xs =>
    (x :: xs).take (n + 1) :: chunks (n + 1) ((x :: xs).drop (n + 1))
termination_by _ l => l.length
decreasing_by
  simp only [List.drop_succ_cons, List.length_drop, List.length_cons]
  omega

theorem chunks_nil (n : Nat) : chunks n ([] : List α) = [] := by
  cases n <;> simp [chunks]

theorem chunks_short (n : Nat) (l : List α) (hn : n ≠ 0) (hl : l ≠ [])
    (hlen : l.length ≤ n) : chunks n l = [l] := by
  obtain ⟨m, rfl⟩ : ∃ m, n = m + 1 := ⟨n - 1, by omega⟩
  obtain ⟨x, xs, rfl⟩ : ∃ x xs, l = x :: xs := by
    cases l with
    | nil => exact absurd rfl hl
    | cons x xs => exact ⟨x, xs, rfl⟩
  rw [chunks, List.take_of_length_le hlen, List.drop_eq_nil_of_le hlen,
    chunks_nil]

theorem chunks_exact (n : Nat) (a rest : List α) (hn : n ≠ 0)
    (ha : a.length = n) : chunks n (a ++ rest) = a :: chunks n rest := by
  obtain ⟨m, rfl⟩ : ∃ m, n = m + 1 := ⟨n - 1, by omega⟩
  obtain ⟨x, a', rfl⟩ : ∃ x a', a = x :: a' := by
    cases a with
    | nil => simp at ha
    | cons x a' => exact ⟨x, a', rfl⟩
  rw [List.cons_append, chunks, ← List.cons_append, ← ha,
    List.take_left, List.drop_left]

/-- The result of one `run_etl` call: the `processed` and `inserted`
counts it returns, plus the list of batches it handed to the loader, in
order (the model's record of the store calls made). -/
structure EtlResult (δ : Type) where
  processed : Nat
  inserted : Nat
  flushes : List (List δ)
deriving DecidableEq, Repr

/-- The `for rec in gen` loop of `run_etl` (circl_pdns_etl.py lines
216-231), with the end-of-stream flush: `tr` is the per-record document
construction (`transform_record` plus the `_query` fields), `load` the
loader, `bsize` the `BATCH_SIZE`. -/
def run_etl_go (bsize : Nat) (load : List δ → Nat) (tr : ρ → δ) :
    List ρ → List δ → Nat → Nat → List (List δ) → EtlResult δ
  | [], batch, processed, inserted, flushes =>
    if batch.isEmpty then ⟨processed, inserted, flushes⟩
    else ⟨processed, inserted + load batch, flushes ++ [batch]⟩
  | r :: rs, batch, processed, inserted, flushes =>
    let batch2 := batch ++ [tr r]
    if bsize ≤ batch2.length then
      run_etl_go bsize load tr rs [] (processed + 1)
        (inserted + load batch2) (flushes ++ [batch2])
    else
      run_etl_go bsize load tr rs batch2 (processed + 1) inserted flushes

/-- `run_etl` (lines 198-234) for a record stream `recs`: batch empty,
counters zero. -/
def run_etl (bsize : Nat) (load : List δ → Nat) (tr : ρ → δ)
    (recs : List ρ) : EtlResult δ :=
  run_etl_go bsize load tr recs [] 0 0 []

/-- Loop invariant for `run_etl_go`: with a partial batch shorter than
`bsize` in hand, the rest of the run flushes exactly the `bsize`-chunks
of the pending-plus-remaining documents, counts every remaining record,
and adds up the loader's replies. -/
theorem run_etl_go_spec (bsize : Nat) (hb : bsize ≠ 0) (load : List δ → Nat)
    (tr : ρ → δ) (recs : List ρ) (batch : List δ)
    (processed inserted : Nat) (flushes : List (List δ))
    (hlen : batch.length < bsize) :
    run_etl_go bsize load tr recs batch processed inserted flushes =
      ⟨processed + recs.length,
       inserted + ((chunks bsize (batch ++ recs.map tr)).map load).sum,
       flushes ++ chunks bsize (batch ++ recs.map tr)⟩ := by
  induction recs generalizing batch processed inserted flushes with
  | nil =>
    by_cases hbe : batch = []
    · simp [run_etl_go, hbe, chunks_nil]
    · have hch := chunks_short bsize batch hb hbe (le_of_lt hlen)
      have hemp : batch.isEmpty = false := by
        cases batch with
        | nil => exact absurd rfl hbe
        | cons x xs => rfl
      simp [run_etl_go, hemp, hch]
  | cons r rs ih =>
    have hb2 : (batch ++ [tr r]).length = batch.length + 1 := by
      rw [List.length_append]; rfl
    simp only [run_etl_go, List.map_cons]
    by_cases hfull : bsize ≤ (batch ++ [tr r]).length
    · have hlen2 : (batch ++ [tr r]).length = bsize := by omega
      have hassoc : batch ++ tr r :: rs.map tr =
          (batch ++ [tr r]) ++ rs.map tr := by simp
      rw [if_pos hfull, ih [] _ _ _ (by simpa using Nat.pos_of_ne_zero hb),
        hassoc, chunks_exact bsize _ _ hb hlen2]
      simp only [List.nil_append, List.map_cons, List.sum_cons,
        List.length_cons]
      congr 1
      · omega
      · omega
      · simp
    · have hlen2 : (batch ++ [tr r]).length < bsize := by omega
      rw [if_neg hfull, ih (batch ++ [tr r]) _ _ _ hlen2]
      have hassoc : batch ++ tr r :: rs.map tr =
          (batch ++ [tr r]) ++ rs.map tr := by simp
      rw [hassoc]
      simp only [List.length_cons]
      congr 1
      omega

/-- C5: `run_etl` flushes via the loader exactly the successive
`BATCH_SIZE`-sized batches of the normalized documents plus one final
partial batch, returns `processed` equal to the number of records
consumed and `inserted` equal to the sum of the loader's replies; on the
empty stream it returns `{processed := 0, inserted := 0}` with no store
call made (`flushes = []`). -/
theorem run_etl_batching (bsize : Nat) (load : List δ → Nat) (tr : ρ → δ)
    (recs : List ρ) (hb : 1 ≤ bsize) :
    run_etl bsize load tr recs =
      ⟨recs.length,
       ((chunks bsize (recs.map tr)).map load).sum,
       chunks bsize (recs.map tr)⟩ ∧
    run_etl bsize load tr ([] : List ρ) = ⟨0, 0, []⟩ := by
  constructor
  · have h := run_etl_go_spec bsize (by omega) load tr recs [] 0 0 []
      (by simpa using hb)
    simpa [run_etl] using h
  · simp [run_etl, run_etl_go]

/-- Witness for `run_etl_batching`: batch size 2 over three records — two
flushes, `[11, 12]` and the remainder `[13]`, `processed = 3`,
`inserted` the loader's summed replies. -/
theorem run_etl_batching_witness :
    run_etl 2 List.sum (fun r : Nat => r + 10) [1, 2, 3] =
      ⟨3, 36, [[11, 12], [13]]⟩ := by
  have h := (run_etl_batching 2 List.sum (fun r : Nat => r + 10) [1, 2, 3]
    (by decide)).1
  rw [h]
  have h2 : chunks 2 ([11, 12, 13] : List Nat) = [[11, 12], [13]] := by
    simp [chunks]
  simp [h2]

end CirclPdns

namespace Shodan

open CirclPdns (DT)

/-- JSON-like Python values as returned by the Shodan endpoints. -/
inductive JVal where
  | null : JVal
  | str (s : String) : JVal
  | num (n : Int) : JVal
  | arr (xs : List JVal) : JVal
  | obj (fields : List (String × JVal)) : JVal

/-- A JSON mapping. -/
abbrev JObj : Type := List (String × JVal)

/-- Python truthiness of a `JVal`. -/
def jTruthy : JVal → Bool
  | .null => false
  | .str s => s != ""
  | .num n => n != 0
  | .arr xs => !xs.isEmpty
  | .obj fs => !fs.isEmpty

/-- `d.get(k)`: `None` when the key is absent. -/
def jGet (d : JObj) (k : String) : JVal :=
  (List.lookup k d).getD .null

/-- `d.get(k, v)`: the default `v` when the key is absent. -/
def jGetD (d : JObj) (k : String) (v : JVal) : JVal :=
  (List.lookup k d).getD v

/-- The idiom `parser.parse(d[k]) if d.get(k) else None` of
etl_shodan.py lines 92 and 103, applied to the value `v = d.get(k)`.
A falsy value gives `None`; a truthy string goes to the date parser `p`,
whose failure raises (`.error`), and there is no surrounding
`try`/`except`; a truthy non-string raises a `TypeError` inside
`parser.parse`. -/
def parseTimeField (p : String → Option DT) (v : JVal) :
    Except Unit (Option DT) :=
  if jTruthy v then
    match v with
    | .str s =>
      match p s with
      | some d => .ok (some d)
      | Option.none => .error ()
    | _ => .error ()
  else .ok Option.none

/-- One entry of the `services` list built by `transform_host_data`
(etl_shodan.py lines 96-106). -/
structure ServiceDoc where
  port : JVal
  transport : JVal
  org : JVal
  asn : JVal
  domains : JVal
  timestamp : Option DT

/-- One step of the `services` list comprehension: `s.get(...)` on a
non-mapping raises `AttributeError`, and the `timestamp` idiom can raise
as in `parseTimeField`. -/
def transform_service (p : String → Option DT) : JVal → Except Unit ServiceDoc
  | .obj s =>
    match parseTimeField p (jGet s "timestamp") with
    | .error e => .error e
    | .ok ts =>
      .ok ⟨jGet s "port", jGet s "transport", jGet s "org", jGet s "asn",
           jGetD s "domains" (.arr []), ts⟩
  | _ => .error ()

/-- Iterating `data.get("data", [])` in the list comprehension: a list
yields its elements, a mapping its keys, a string its characters, and a
truthy number or `None` raises `TypeError`. -/
def serviceItems : JVal → Except Unit (List JVal)
  | .arr xs => .ok xs
  | .obj fs => .ok (fs.map fun f => JVal.str f.1)
  | .str s => .ok (s.toList.map fun c => JVal.str (String.mk [c]))
  | .null => .error ()
  | .num _ => .error ()

/-- The document built by `transform_host_data` (etl_shodan.py lines
83-110). -/
structure HostDoc where
  ip : JVal
  asn : JVal
  org : JVal
  isp : JVal
  country : JVal
  country_code : JVal
  latitude : JVal
  longitude : JVal
  last_update : Option DT
  domains : JVal
  hostnames : JVal
  ports : JVal
  services : List ServiceDoc
  _etl_source : String
  _etl_ingested_at : DT
  _etl_version : String

/-- Sequenced transformation of the services list, propagating the first
exception, as the list comprehension does. -/
def transform_services (p : String → Option DT) :
    List JVal → Except Unit (List ServiceDoc)
  | [] => .ok []
  | s :: ss =>
    match transform_service p s with
    | .error e => .error e
    | .ok doc =>
      match transform_services p ss with
      | .error e => .error e
      | .ok docs => .ok (doc :: docs)

/-- Embedding of `transform_host_data` (etl_shodan.py lines 79-110) on a
mapping input.  `p` models `dateutil.parser.parse`, `now` the
`datetime.utcnow()` read.  Unlike the other script's normalizer, nothing
here catches parse errors, so the result is an `Except`: `.error ()`
models an exception escaping the function. -/
def transform_host_data (p : String → Option DT) (now : DT) (data : JObj) :
    Except Unit (Option HostDoc) :=
  if data.isEmpty then .ok Option.none
  else
    match parseTimeField p (jGet data "last_update") with
    | .error e => .error e
    | .ok lu =>
      match serviceItems (jGetD data "data" (.arr [])) with
      | .error e => .error e
      | .ok items =>
        match transform_services p items with
        | .error e => .error e
        | .ok services =>
          .ok (some
            { ip := jGet data "ip_str"
              asn := jGet data "asn"
              org := jGet data "org"
              isp := jGet data "isp"
              country := jGet data "country_name"
              country_code := jGet data "country_code"
              latitude := jGet data "latitude"
              longitude := jGet data "longitude"
              last_update := lu
              domains := jGetD data "domains" (.arr [])
              hostnames := jGetD data "hostnames" (.arr [])
              ports := jGetD data "ports" (.arr [])
              services := services
              _etl_source := "shodan_host"
              _etl_ingested_at := now
              _etl_version := "2.0" })

/-- A concrete stand-in for the external date parser used by the closed
statements below: accepts exactly one timestamp string. -/
def shodanParse : String → Option DT := fun s =>
  if s = "2024-01-01T00:00:00" then some ⟨1704067200⟩ else Option.none

/-- The claim "the host-scan transform functions never raise; a malformed
timestamp sub-field becomes None" fails: on a mapping whose `last_update`
is a string the date parser rejects, `transform_host_data` raises
(`parser.parse` is called with no `try`/`except` around it). -/
theorem transform_host_data_malformed_ts_cex :
    transform_host_data shodanParse ⟨0⟩
      [("last_update", JVal.str "not-a-date")] = .error () := rfl

/-- C9 (amended): the transform degrades absent expected fields to `None`
or an empty list without raising — when the input mapping has no
`last_update` field and no `data` field, the result is a document with
`last_update = None`, empty-list defaults for `domains`, `hostnames` and
`ports` when those are absent, and no services; but a present truthy
unparseable timestamp raises (see the counterexample). -/
theorem transform_host_data_graceful (p : String → Option DT) (now : DT)
    (data : JObj) (hne : data ≠ [])
    (hlu : List.lookup "last_update" data = Option.none)
    (hdata : List.lookup "data" data = Option.none)
    (hdom : List.lookup "domains" data = Option.none)
    (hhost : List.lookup "hostnames" data = Option.none)
    (hports : List.lookup "ports" data = Option.none) :
    transform_host_data p now data =
      .ok (some
        { ip := jGet data "ip_str"
          asn := jGet data "asn"
          org := jGet data "org"
          isp := jGet data "isp"
          country := jGet data "country_name"
          country_code := jGet data "country_code"
          latitude := jGet data "latitude"
          longitude := jGet data "longitude"
          last_update := Option.none
          domains := .arr []
          hostnames := .arr []
          ports := .arr []
          services := []
          _etl_source := "shodan_host"
          _etl_ingested_at := now
          _etl_version := "2.0" }) := by
  have hemp : data.isEmpty = false := by
    cases data with
    | nil => exact absurd rfl hne
    | cons x xs => rfl
  simp only [transform_host_data, hemp, Bool.false_eq_true, if_false,
    jGet, jGetD, hlu, hdata, hdom, hhost, hports, Option.getD_none,
    parseTimeField, jTruthy, Bool.false_eq_true, if_false,
    serviceItems, transform_services]

/-- Witness for `transform_host_data_graceful`: a one-field mapping. -/
theorem transform_host_data_graceful_witness :
    transform_host_data shodanParse ⟨0⟩ [("ip_str", JVal.str "8.8.8.8")] =
      .ok (some
        { ip := JVal.str "8.8.8.8"
          asn := JVal.null
          org := JVal.null
          isp := JVal.null
          country := JVal.null
          country_code := JVal.null
          latitude := JVal.null
          longitude := JVal.null
          last_update := Option.none
          domains := .arr []
          hostnames := .arr []
          ports := .arr []
          services := []
          _etl_source := "shodan_host"
          _etl_ingested_at := ⟨0⟩
          _etl_version := "2.0" }) := by
  have h := transform_host_data_graceful shodanParse ⟨0⟩
    [("ip_str", JVal.str "8.8.8.8")] (by simp) rfl rfl rfl rfl rfl
  simpa [jGet] using h

end Shodan
